import Mathlib

/-!
Verification of the progress-reporting / human-readable-size core of
`zmwangx/pyzmwangx` (`zmwangx/humansize.py`, `zmwangx/humantime.py`,
`zmwangx/pbar.py`), shallowly embedded in Lean.

Python `decimal.Decimal` values occurring in `humansize` are nonnegative
finite decimals; they are embedded as a natural coefficient `m` together
with a natural exponent `e`, denoting `m / 10 ^ e`.  The default decimal
context (precision 28, `ROUND_HALF_EVEN`) is embedded by `divRound`;
`quantize(..., rounding=ROUND_UP)` by `roundUp`.  Clocks (`time.time()`)
are passed to each operation as an explicit rational `now` argument;
exceptions are `Except PyErr`.
-/

deriving instance DecidableEq for Except

/-- Python exception kinds raised by the embedded code. -/
inductive PyErr where
  | valueError
  | runtimeError
  | unboundLocalError
  | invalidOperation
deriving DecidableEq, Repr

/-- Core recursion for `fl10`, structural in the fuel. -/
def fl10Go : ℕ → ℕ → ℕ
  | 0, _ => 0
  | f + 1, n => if n < 10 then 0 else fl10Go f (n / 10) + 1

/-- `⌊log10 n⌋` for positive `n` (0 for `n = 0`).  The fuel 400 is exact for
all `n < 10 ^ 400`, far beyond every operand reachable in this development. -/
def fl10 (n : ℕ) : ℕ := fl10Go 400 n

/-- Divide `x` by `y`, rounding half to even (decimal `ROUND_HALF_EVEN`). -/
def rhe (x y : ℕ) : ℕ :=
  let d := x / y
  let r := x % y
  if 2 * r < y then d
  else if y < 2 * r then d + 1
  else if d % 2 = 0 then d else d + 1

/-- A nonnegative finite decimal: value `m / 10 ^ e`.  Embeds the
`decimal.Decimal` values manipulated by `humansize`. -/
structure Dec where
  m : ℕ
  e : ℕ
deriving DecidableEq, Repr

def Dec.ofNat (n : ℕ) : Dec := ⟨n, 0⟩

/-- Exact comparison `a < b` of decimal values. -/
def Dec.blt (a b : Dec) : Bool := decide (a.m * 10 ^ b.e < b.m * 10 ^ a.e)

/-- Exact comparison `a == b` of decimal values. -/
def Dec.beq (a b : Dec) : Bool := decide (a.m * 10 ^ b.e = b.m * 10 ^ a.e)

/-- Whether `10 ^ e ≤ p / q` (for positive `p`, `q`). -/
def pow10le (e : ℤ) (p q : ℕ) : Bool :=
  if 0 ≤ e then decide (q * 10 ^ e.toNat ≤ p) else decide (q ≤ p * 10 ^ (-e).toNat)

/-- The quotient `p / q` correctly rounded (half-even) to 28 significant
digits: the value produced by division in Python's default decimal context. -/
def divRound (p q : ℕ) : Dec :=
  if p = 0 ∨ q = 0 then ⟨0, 0⟩
  else
    let e0 : ℤ := (fl10 p : ℤ) - (fl10 q : ℤ)
    let E : ℤ := if pow10le e0 p q then e0 else e0 - 1
    let k : ℤ := E - 27
    if k ≤ 0 then ⟨rhe (p * 10 ^ (-k).toNat) q, (-k).toNat⟩
    else ⟨rhe p (q * 10 ^ k.toNat) * 10 ^ k.toNat, 0⟩

/-- `size /= multiplier` in the default decimal context. -/
def div28 (a b : Dec) : Dec := divRound (a.m * 10 ^ b.e) (b.m * 10 ^ a.e)

/-- `⌈value(a) * 10 ^ nd⌉` as a natural number. -/
def Dec.ceilTo (a : Dec) (nd : ℕ) : ℕ := (a.m * 10 ^ nd + 10 ^ a.e - 1) / 10 ^ a.e

/-- `round_up` from `humansize.py`: `quantize(Decimal(10) ** (-ndigits),
rounding=ROUND_UP)` on a nonnegative decimal.  `quantize` raises
`InvalidOperation` when the resulting coefficient needs more than the
context precision of 28 digits. -/
def roundUp (a : Dec) (nd : ℕ) : Except PyErr Dec :=
  let c := Dec.ceilTo a nd
  if 10 ^ 28 ≤ c then .error .invalidOperation else .ok ⟨c, nd⟩

/-- Left-pad a string with `'0'` to width `w`. -/
def zpad (s : String) (w : ℕ) : String :=
  String.mk (List.replicate (w - s.length) '0') ++ s

/-- `"%.<nd>f"` applied to the decimal `⟨c, nd⟩` (exactly `nd` fractional
digits).  All such values reaching a format site fit exactly in a binary
double, so Python's float formatting prints them exactly. -/
def fmtCoeff (c : ℕ) (nd : ℕ) : String :=
  if nd = 0 then Nat.repr c
  else Nat.repr (c / 10 ^ nd) ++ "." ++ zpad (Nat.repr (c % 10 ^ nd)) nd

/-- Outcome of the prefix loop of `humansize`: numeric part `c / 10 ^ nd`,
chosen unit prefix `pfx`, and whether it came from the after-loop
largest-unit fallback (`fb = true`). -/
structure HSOut where
  c : ℕ
  nd : ℕ
  pfx : String
  fb : Bool
deriving DecidableEq, Repr

/-- Render an `HSOut` the way `humansize` builds its return strings. -/
def renderHS (conn unit : String) (o : HSOut) : String :=
  fmtCoeff o.c o.nd ++ conn ++ o.pfx ++ unit

/-- The `return "%.1f%s%s%s" % (round_up(size, 1), ...)` line after the
prefix loop of `humansize` (reached with the last prefix in scope). -/
def humansizeLast (size : Dec) (p : String) : Except PyErr HSOut :=
  (roundUp size 1).map fun r => ⟨r.m, 1, p, true⟩

/-- The `for unitprefix in _PREFIXES[prefix]` loop of `humansize`.
Each iteration divides `size` by the multiplier; if the quotient is below
the multiplier it formats it, escalating (`size = multiplier; continue`)
when rounding to a whole number reaches the multiplier; when the loop ends
without returning, `humansizeLast` runs with the last prefix. -/
def humansizeLoop (numfmt : Bool) (mult : ℕ) : Dec → List String → Except PyErr HSOut
  | _, [] => .error .valueError
  | size, p :: rest =>
    let size := div28 size (Dec.ofNat mult)
    if Dec.blt size (Dec.ofNat mult) then
      if numfmt = false then
        match roundUp size 2 with
        | .error er => .error er
        | .ok r2 =>
          if Dec.blt r2 (Dec.ofNat 10) then .ok ⟨r2.m, 2, p, false⟩
          else
            match roundUp size 1 with
            | .error er => .error er
            | .ok r1 =>
              if Dec.blt r1 (Dec.ofNat 100) then .ok ⟨r1.m, 1, p, false⟩
              else
                match roundUp size 0 with
                | .error er => .error er
                | .ok r0 =>
                  if Dec.beq r0 (Dec.ofNat mult) then
                    match rest with
                    | [] => humansizeLast (Dec.ofNat mult) p
                    | _ => humansizeLoop numfmt mult (Dec.ofNat mult) rest
                  else .ok ⟨r0.m, 0, p, false⟩
      else
        match roundUp size 1 with
        | .error er => .error er
        | .ok r1 =>
          if Dec.blt r1 (Dec.ofNat 10) then .ok ⟨r1.m, 1, p, false⟩
          else
            match roundUp size 0 with
            | .error er => .error er
            | .ok r0 =>
              if Dec.beq r0 (Dec.ofNat mult) then
                match rest with
                | [] => humansizeLast (Dec.ofNat mult) p
                | _ => humansizeLoop numfmt mult (Dec.ofNat mult) rest
              else .ok ⟨r0.m, 0, p, false⟩
    else
      match rest with
      | [] => humansizeLast size p
      | _ => humansizeLoop numfmt mult size rest

/-- `_PREFIXES[prefix]` from `humansize.py`. -/
def pfxTable (s : String) : List String :=
  if s = "iec-i" then ["Ki", "Mi", "Gi", "Ti", "Pi", "Ei", "Zi", "Yi"]
  else ["K", "M", "G", "T", "P", "E", "Z", "Y"]

/-- `humansize` on an already-converted nonnegative decimal (the `size < 0`
check lives in the integer/rational wrappers below, mirroring the order of
checks in the source). -/
def humansizeD (size : Dec) (psys unit : String) (space numfmt : Bool) :
    Except PyErr String :=
  if psys = "iec-i" ∨ psys = "iec" ∨ psys = "si" then
    let conn := if space then " " else ""
    let mult : ℕ := if psys = "si" then 1000 else 1024
    if Dec.blt size (Dec.ofNat mult) then
      .ok (Nat.repr (size.m / 10 ^ size.e) ++ conn ++ unit)
    else (humansizeLoop numfmt mult size (pfxTable psys)).map (renderHS conn unit)
  else .error .valueError

/-- `humansize` on a Python integer. -/
def humansizeZ (size : ℤ) (psys unit : String) (space numfmt : Bool) :
    Except PyErr String :=
  if size < 0 then .error .valueError
  else humansizeD (Dec.ofNat size.toNat) psys unit space numfmt

/-- `Decimal(x)` for a nonnegative rational produced by float arithmetic
(floats are dyadic, hence finite decimals; the conversion is embedded as
correct rounding to the 28-digit context precision). -/
def qToDec (q : ℚ) : Dec := divRound q.num.toNat q.den

/-- `humansize` on a nonnegative rational (the float `speed` arguments). -/
def humansizeQ (size : ℚ) (psys unit : String) (space numfmt : Bool) :
    Except PyErr String :=
  if size < 0 then .error .valueError
  else humansizeD (qToDec size) psys unit space numfmt

/-- Python `round()` on a nonnegative rational: round half to even. -/
def rheNat (q : ℚ) : ℕ :=
  let f := (⌊q⌋).toNat
  let r := q - (f : ℚ)
  if r < 1/2 then f else if 1/2 < r then f + 1 else if f % 2 = 0 then f else f + 1

/-- Python `round()` on a rational: round half to even. -/
def rheInt (q : ℚ) : ℤ :=
  let f := ⌊q⌋
  let r := q - (f : ℚ)
  if r < 1/2 then f else if 1/2 < r then f + 1 else if f % 2 = 0 then f else f + 1

/-- Python `int()` on a rational: truncate toward zero. -/
def truncQ (q : ℚ) : ℤ := if 0 ≤ q then ⌊q⌋ else -⌊-q⌋

/-- `c * n` string repetition. -/
def sRep (c : Char) (n : ℕ) : String := String.mk (List.replicate n c)

/-- String repetition with a Python integer count (negative counts give ""). -/
def sRepZ (c : Char) (n : ℤ) : String := String.mk (List.replicate n.toNat c)

/-- `"{:>w}"` right alignment with spaces. -/
def padSp (w : ℕ) (s : String) : String :=
  String.mk (List.replicate (w - s.length) ' ') ++ s

/-- `"%02d"`. -/
def pad2 (n : ℕ) : String := zpad (Nat.repr n) 2

/-- `humantime` from `humantime.py` on a rational number of seconds. -/
def humantime (seconds : ℚ) (ndigits : ℕ) (one_hour_digit : Bool) :
    Except PyErr String :=
  if seconds < 0 then .error .valueError
  else
    let t : ℕ := (⌊seconds⌋).toNat
    let hh := t / 3600
    let mm := (t / 60) % 60
    let ss : ℚ := seconds - (((t / 60) * 60 : ℕ) : ℚ)
    let hh_str := if one_hour_digit then Nat.repr hh else pad2 hh
    let mm_str := pad2 mm
    let ss_str :=
      if ndigits = 0 then pad2 (rheNat ss)
      else zpad (fmtCoeff (rheNat (ss * 10 ^ ndigits)) ndigits) (ndigits + 3)
    .ok (hh_str ++ ":" ++ mm_str ++ ":" ++ ss_str)

/-- The attribute state of a `ProgressText` instance.  `finish` deletes
`interval`, `show_elapsed_time` and `_last` in the source; every method
checks `_finished` before touching them, so the deleted attributes are
modeled as simply retained.  `elapsed` exists only after `finish`; it is
modeled as a field (0 before `finish` sets it). -/
structure PTState where
  start : ℚ
  interval : ℚ
  show_elapsed_time : Bool
  last : ℚ
  finished : Bool
  elapsed : ℚ
deriving DecidableEq, Repr

/-- `ProgressText.text` with a plain string `content` (the
`try: content(*args) except TypeError:` falls back to the string itself).
`now` is the wall clock during the call.  Note: the source never assigns
`self._last` here; the redraw branch therefore returns the state
unchanged. -/
def ProgressText.text (st : PTState) (now : ℚ) (content : String) (force : Bool) :
    PTState × Except PyErr (Option String) :=
  if st.finished then (st, .error .runtimeError)
  else if force = false ∧ now - st.last < st.interval then (st, .ok none)
  else
    if st.show_elapsed_time then
      match humantime (now - st.start) 0 true with
      | .error er => (st, .error er)
      | .ok h => (st, .ok (some ("\r\x1b[K" ++ (h ++ ": " ++ content))))
    else (st, .ok (some ("\r\x1b[K" ++ content)))

/-- `ProgressText.__init__`: record the clock, then one forced redraw. -/
def ProgressText.init (interval : ℚ) (show_elapsed_time : Bool)
    (init_text : String) (now : ℚ) : PTState × Except PyErr (Option String) :=
  ProgressText.text
    { start := now, interval := interval, show_elapsed_time := show_elapsed_time,
      last := now, finished := false, elapsed := 0 }
    now init_text true

/-- `ProgressText.finish` with a plain string `content`.  `self.elapsed` is
set before the redraw; if the redraw raises (elapsed-time formatting of a
negative clock difference), `_finished` is never set. -/
def ProgressText.finish (st : PTState) (now : ℚ) (content : String) :
    PTState × Except PyErr (Option String) :=
  if st.finished then (st, .error .runtimeError)
  else
    let st := { st with elapsed := max (now - st.start) (1/1000) }
    if st.show_elapsed_time then
      match humantime (now - st.start) 0 true with
      | .error er => (st, .error er)
      | .ok h =>
        ({ st with finished := true },
         .ok (some ("\r\x1b[K" ++ (h ++ ": " ++ content) ++ "\n")))
    else ({ st with finished := true }, .ok (some ("\r\x1b[K" ++ content ++ "\n")))

/-- `speed_mode` values. -/
inductive SpeedMode where
  | cumulative
  | instant
deriving DecidableEq, Repr

/-- The attribute state of a `ProgressBar` instance (inherited `ProgressText`
attributes in `pt`).  `finish` deletes `speed_mode`, `_last_processed` and
`processed`; as above the deleted attributes are modeled as retained since
the `_finished` guard fires first. -/
structure PBState where
  pt : PTState
  totalsize : ℤ
  processed : ℤ
  preprocessed : ℤ
  speed_mode : SpeedMode
  last_processed : ℤ
  barlen : ℕ
deriving DecidableEq, Repr

/-- The string-building tail of `ProgressBar._generate_bar` (everything after
the `_last`/`_last_processed` bookkeeping), on the already-updated state. -/
def ProgressBar.render_bar (st : PBState) (now : ℚ) (speed : ℚ) :
    Except PyErr String := do
  let processed_s ← humansizeZ st.processed "iec-i" "B" false false
  let elapsed_s ← humantime (now - st.pt.start) 0 true
  let speed_s ← humansizeQ speed "iec-i" "B" false false
  let percentage : ℚ := (st.processed : ℚ) / (st.totalsize : ℚ)
  let percent_s := Int.repr (truncQ (percentage * 100))
  let length : ℤ := rheInt ((st.barlen : ℚ) * percentage)
  let bar_s :=
    if length = 0 then sRep ' ' st.barlen
    else sRepZ '=' (length - 1) ++ ">" ++ sRepZ ' ' ((st.barlen : ℤ) - length)
  let remaining : ℚ := (st.totalsize : ℚ) - (st.processed : ℚ)
  let eta_s ←
    if 0 < speed then (humantime (remaining / speed) 0 true).map ("ETA " ++ ·)
    else .ok "ETA unknown"
  .ok (padSp 7 processed_s ++ " " ++ elapsed_s ++ " [" ++ padSp 7 speed_s ++
       "/s] [" ++ bar_s ++ "] " ++ padSp 3 percent_s ++ "% " ++ eta_s)

/-- `ProgressBar._generate_bar`.  In `"instant"` mode the source computes
`elapsed_since_last = max(elapsed_since_last, 0.001)` without ever having
assigned `elapsed_since_last`, so every instant-mode call raises
`UnboundLocalError` before any state is touched.  In `"cumulative"` mode the
`_last`/`_last_processed` bookkeeping happens before the string is built, so
a later formatting exception still leaves the bookkeeping done. -/
def ProgressBar.generate_bar (st : PBState) (now : ℚ) :
    PBState × Except PyErr String :=
  if st.pt.finished then (st, .error .runtimeError)
  else
    match st.speed_mode with
    | .instant => (st, .error .unboundLocalError)
    | .cumulative =>
      let elapsed := max (now - st.pt.start) (1/1000)
      let speed : ℚ := ((st.processed : ℚ) - (st.preprocessed : ℚ)) / elapsed
      let st' := { st with pt := { st.pt with last := now },
                           last_processed := st.processed }
      (st', ProgressBar.render_bar st' now speed)

/-- `ProgressText.text` as invoked by `ProgressBar` with
`content = self._generate_bar` (the callable branch of the `try`). -/
def ProgressBar.text_bar (st : PBState) (now : ℚ) (force : Bool) :
    PBState × Except PyErr (Option String) :=
  if st.pt.finished then (st, .error .runtimeError)
  else if force = false ∧ now - st.pt.last < st.pt.interval then (st, .ok none)
  else
    match ProgressBar.generate_bar st now with
    | (st', .error er) => (st', .error er)
    | (st', .ok t) =>
      if st'.pt.show_elapsed_time then
        match humantime (now - st'.pt.start) 0 true with
        | .error er => (st', .error er)
        | .ok h => (st', .ok (some ("\r\x1b[K" ++ (h ++ ": " ++ t))))
      else (st', .ok (some ("\r\x1b[K" ++ t)))

/-- `ProgressBar.__init__`.  `ncol` is the column count reported by
`os.get_terminal_size` (`none` when that call fails, in which case the
source assumes 80).  A raise during the initial forced redraw (e.g. the
instant-mode `UnboundLocalError`) propagates out of the constructor. -/
def ProgressBar.init (totalsize preprocessed : ℤ) (interval : ℚ)
    (sm : SpeedMode) (now : ℚ) (ncol : Option ℕ) : Except PyErr PBState :=
  if totalsize ≤ 0 then .error .valueError
  else
    match ProgressText.init interval false "" now with
    | (_, .error er) => .error er
    | (pt0, .ok _) =>
      let cols := ncol.getD 80
      let barlen := if 58 ≤ cols then cols - 48 else 10
      let st : PBState :=
        { pt := pt0, totalsize := totalsize, processed := preprocessed,
          preprocessed := preprocessed, speed_mode := sm,
          last_processed := 0, barlen := barlen }
      match ProgressBar.text_bar st now true with
      | (_, .error er) => .error er
      | (st', .ok _) => .ok st'

/-- `ProgressBar.update`: register the chunk, clamp to `totalsize`, then a
throttled redraw. -/
def ProgressBar.update (st : PBState) (chunk_size : ℤ) (now : ℚ) :
    PBState × Except PyErr (Option String) :=
  if st.pt.finished then (st, .error .runtimeError)
  else
    let p := st.processed + chunk_size
    let p := if st.totalsize < p then st.totalsize else p
    ProgressBar.text_bar { st with processed := p } now false

/-- `ProgressBar.force_update`: overwrite the processed size, clamp, forced
redraw. -/
def ProgressBar.force_update (st : PBState) (processed_size : ℤ) (now : ℚ) :
    PBState × Except PyErr (Option String) :=
  if st.pt.finished then (st, .error .runtimeError)
  else
    let p := processed_size
    let p := if st.totalsize < p then st.totalsize else p
    ProgressBar.text_bar { st with processed := p } now true

/-- `ProgressBar._generate_finish_bar` (no `_finished` guard in its body). -/
def ProgressBar.generate_finish_bar (st : PBState) : Except PyErr String := do
  let processed_s ← humansizeZ st.totalsize "iec-i" "B" false false
  let elapsed_s ← humantime st.pt.elapsed 0 true
  let speed_s ←
    humansizeQ (((st.totalsize : ℚ) - (st.preprocessed : ℚ)) / st.pt.elapsed)
      "iec-i" "B" false false
  let bar_s := sRep '=' (st.barlen - 1) ++ ">"
  .ok (padSp 7 processed_s ++ " " ++ elapsed_s ++ " [" ++ padSp 7 speed_s ++
       "/s] [" ++ bar_s ++ "] " ++ padSp 3 "100" ++ "% " ++ sRep ' ' 11)

/-- `ProgressBar.finish`: guard, delete per-update state (modeled as
retained), then `ProgressText.finish` with the finish-bar renderer.
`elapsed` is set before the renderer runs; if rendering raises, `_finished`
is never set. -/
def ProgressBar.finish (st : PBState) (now : ℚ) :
    PBState × Except PyErr (Option String) :=
  if st.pt.finished then (st, .error .runtimeError)
  else
    let st := { st with pt := { st.pt with elapsed := max (now - st.pt.start) (1/1000) } }
    match ProgressBar.generate_finish_bar st with
    | .error er => (st, .error er)
    | .ok t =>
      if st.pt.show_elapsed_time then
        match humantime (now - st.pt.start) 0 true with
        | .error er => (st, .error er)
        | .ok h =>
          ({ st with pt := { st.pt with finished := true } },
           .ok (some ("\r\x1b[K" ++ (h ++ ": " ++ t) ++ "\n")))
      else
        ({ st with pt := { st.pt with finished := true } },
         .ok (some ("\r\x1b[K" ++ t ++ "\n")))

/-- A `ProgressText` session as produced by
`ProgressText(interval=0.1, show_elapsed_time=False)` at clock 0. -/
def c2state : PTState := (ProgressText.init (1/10) false "" 0).1

/-- An active instant-mode `ProgressBar` session (as the attributes would
stand mid-processing, were construction able to complete). -/
def c3state : PBState :=
  { pt := { start := 0, interval := 1, show_elapsed_time := false, last := 0,
            finished := false, elapsed := 0 },
    totalsize := 100, processed := 42, preprocessed := 0,
    speed_mode := .instant, last_processed := 17, barlen := 32 }

/-- The session produced by `ProgressBar(10, preprocessed=20)` at clock 0 on
an 80-column terminal. -/
def c4bad : PBState :=
  { pt := { start := 0, interval := 1, show_elapsed_time := false, last := 0,
            finished := false, elapsed := 0 },
    totalsize := 10, processed := 20, preprocessed := 20,
    speed_mode := .cumulative, last_processed := 20, barlen := 32 }

/-- The session produced by `ProgressBar(10)` at clock 0 on an 80-column
terminal. -/
def c4good : PBState :=
  { pt := { start := 0, interval := 1, show_elapsed_time := false, last := 0,
            finished := false, elapsed := 0 },
    totalsize := 10, processed := 0, preprocessed := 0,
    speed_mode := .cumulative, last_processed := 0, barlen := 32 }

/-- The session of `ProgressBar(10, preprocessed=20)` right before its
constructor's initial forced redraw. -/
def c4pre : PBState :=
  { pt := { start := 0, interval := 1, show_elapsed_time := false, last := 0,
            finished := false, elapsed := 0 },
    totalsize := 10, processed := 20, preprocessed := 20,
    speed_mode := .cumulative, last_processed := 0, barlen := 32 }

/-- A finished `ProgressText` session. -/
def c5fin : PTState :=
  { start := 0, interval := 1, show_elapsed_time := false, last := 0,
    finished := true, elapsed := 1 }

/-- The session invariant claimed for `ProgressBar`. -/
def PBInv (st : PBState) : Prop :=
  0 ≤ st.preprocessed ∧ st.preprocessed ≤ st.processed ∧ st.processed ≤ st.totalsize

instance (st : PBState) : Decidable (PBInv st) := by unfold PBInv; infer_instance

/-- One mutating call on a `ProgressBar` session. -/
inductive PBOp where
  | update (chunk_size : ℤ) (now : ℚ)
  | force_update (processed_size : ℤ) (now : ℚ)
  | finish (now : ℚ)

/-- The session reached after one call (exceptions leave the returned
session in place, as the Python object survives a raise). -/
def ProgressBar.step (st : PBState) : PBOp → PBState
  | .update c t => (ProgressBar.update st c t).1
  | .force_update s t => (ProgressBar.force_update st s t).1
  | .finish t => (ProgressBar.finish st t).1

/-- Argument discipline under which the session invariant is preserved. -/
def opOk (st : PBState) : PBOp → Prop
  | .update c _ => 0 ≤ c
  | .force_update s _ => st.processed ≤ s
  | .finish _ => True

/-- A sequence of `update` calls (chunk size and clock for each). -/
def runUpdates (st : PBState) : List (ℤ × ℚ) → PBState
  | [] => st
  | (c, t) :: rest => runUpdates (ProgressBar.update st c t).1 rest

/-! ## Facts about `roundUp` and the prefix loop -/

theorem Dec.blt_iff {a b : Dec} : Dec.blt a b = true ↔ a.m * 10 ^ b.e < b.m * 10 ^ a.e := by
  simp [Dec.blt]

theorem Dec.beq_iff {a b : Dec} : Dec.beq a b = true ↔ a.m * 10 ^ b.e = b.m * 10 ^ a.e := by
  simp [Dec.beq]

theorem roundUp_ok {a : Dec} {nd : ℕ} {r : Dec} (h : roundUp a nd = .ok r) :
    r = ⟨Dec.ceilTo a nd, nd⟩ := by
  simp only [roundUp] at h
  split at h
  · exact absurd h (by simp)
  · exact (Except.ok.inj h).symm

theorem hs_ceil_le {x d m : ℕ} (hd : 0 < d) (h : x < m * d) : (x + d - 1) / d ≤ m := by
  have h2 : (m + 1) * d = m * d + d := by ring
  have h1 : x + d - 1 < (m + 1) * d := by omega
  exact Nat.lt_succ_iff.mp ((Nat.div_lt_iff_lt_mul hd).mpr h1)

theorem hs_last_ok {size : Dec} {p : String} {out : HSOut}
    (h : humansizeLast size p = .ok out) : out.pfx = p ∧ out.fb = true := by
  unfold humansizeLast at h
  cases hr : roundUp size 1 with
  | error er => rw [hr] at h; exact absurd h (by simp [Except.map])
  | ok r =>
    rw [hr] at h
    simp only [Except.map] at h
    cases h
    exact ⟨rfl, rfl⟩

theorem hs_loop_below_mult (numfmt : Bool) (mult : ℕ) (hm : 100 ≤ mult) :
    ∀ (ps : List String) (size : Dec) (out : HSOut),
      humansizeLoop numfmt mult size ps = .ok out → out.fb = false →
      out.c < mult * 10 ^ out.nd := by
  intro ps
  induction ps with
  | nil => intro size out h hfb; simp [humansizeLoop] at h
  | cons p rest ih =>
    intro size out h hfb
    rw [humansizeLoop.eq_def] at h
    dsimp only at h
    set sz := div28 size (Dec.ofNat mult) with hsz
    by_cases hb : Dec.blt sz (Dec.ofNat mult) = true
    · rw [if_pos hb] at h
      have hble : sz.m < mult * 10 ^ sz.e := by
        have := Dec.blt_iff.mp hb
        simpa [Dec.ofNat] using this
      have hceil : Dec.ceilTo sz 0 ≤ mult := by
        have he : sz.m * 10 ^ 0 + 10 ^ sz.e - 1 = sz.m + 10 ^ sz.e - 1 := by norm_num
        unfold Dec.ceilTo
        rw [he]
        exact hs_ceil_le (Nat.pos_pow_of_pos _ (by norm_num)) hble
      by_cases hnf : numfmt = false
      · rw [if_pos hnf] at h
        cases h2 : roundUp sz 2 with
        | error er => rw [h2] at h; dsimp only at h; exact absurd h (by simp)
        | ok r2 =>
          rw [h2] at h
          dsimp only at h
          have hr2 := roundUp_ok h2
          by_cases hb2 : Dec.blt r2 (Dec.ofNat 10) = true
          · rw [if_pos hb2] at h
            cases h
            subst hr2
            have hlt := Dec.blt_iff.mp hb2
            simp only [Dec.ofNat] at hlt
            norm_num at hlt ⊢
            have h100 : 100 * 100 ≤ mult * 100 := Nat.mul_le_mul_right 100 hm
            omega
          · rw [if_neg hb2] at h
            cases h1 : roundUp sz 1 with
            | error er => rw [h1] at h; dsimp only at h; exact absurd h (by simp)
            | ok r1 =>
              rw [h1] at h
              dsimp only at h
              have hr1 := roundUp_ok h1
              by_cases hb1 : Dec.blt r1 (Dec.ofNat 100) = true
              · rw [if_pos hb1] at h
                cases h
                subst hr1
                have hlt := Dec.blt_iff.mp hb1
                simp only [Dec.ofNat] at hlt
                norm_num at hlt ⊢
                have h100 : 100 * 10 ≤ mult * 10 := Nat.mul_le_mul_right 10 hm
                omega
              · rw [if_neg hb1] at h
                cases h0 : roundUp sz 0 with
                | error er => rw [h0] at h; dsimp only at h; exact absurd h (by simp)
                | ok r0 =>
                  rw [h0] at h
                  dsimp only at h
                  have hr0 := roundUp_ok h0
                  by_cases hbe : Dec.beq r0 (Dec.ofNat mult) = true
                  · rw [if_pos hbe] at h
                    cases rest with
                    | nil =>
                      dsimp only at h
                      have hl := (hs_last_ok h).2
                      rw [hfb] at hl
                      exact absurd hl (by simp)
                    | cons q qs =>
                      dsimp only at h
                      exact ih (Dec.ofNat mult) out h hfb
                  · rw [if_neg hbe] at h
                    cases h
                    subst hr0
                    have hne : Dec.ceilTo sz 0 ≠ mult := by
                      intro hc
                      apply hbe
                      rw [Dec.beq_iff]
                      simp [Dec.ofNat, hc]
                    norm_num
                    omega
      · rw [if_neg hnf] at h
        cases h1 : roundUp sz 1 with
        | error er => rw [h1] at h; dsimp only at h; exact absurd h (by simp)
        | ok r1 =>
          rw [h1] at h
          dsimp only at h
          have hr1 := roundUp_ok h1
          by_cases hb1 : Dec.blt r1 (Dec.ofNat 10) = true
          · rw [if_pos hb1] at h
            cases h
            subst hr1
            have hlt := Dec.blt_iff.mp hb1
            simp only [Dec.ofNat] at hlt
            norm_num at hlt ⊢
            have h100 : 100 * 10 ≤ mult * 10 := Nat.mul_le_mul_right 10 hm
            omega
          · rw [if_neg hb1] at h
            cases h0 : roundUp sz 0 with
            | error er => rw [h0] at h; dsimp only at h; exact absurd h (by simp)
            | ok r0 =>
              rw [h0] at h
              dsimp only at h
              have hr0 := roundUp_ok h0
              by_cases hbe : Dec.beq r0 (Dec.ofNat mult) = true
              · rw [if_pos hbe] at h
                cases rest with
                | nil =>
                  dsimp only at h
                  have hl := (hs_last_ok h).2
                  rw [hfb] at hl
                  exact absurd hl (by simp)
                | cons q qs =>
                  dsimp only at h
                  exact ih (Dec.ofNat mult) out h hfb
              · rw [if_neg hbe] at h
                cases h
                subst hr0
                have hne : Dec.ceilTo sz 0 ≠ mult := by
                  intro hc
                  apply hbe
                  rw [Dec.beq_iff]
                  simp [Dec.ofNat, hc]
                norm_num
                omega
    · rw [if_neg hb] at h
      cases rest with
      | nil =>
        dsimp only at h
        have hl := (hs_last_ok h).2
        rw [hfb] at hl
        exact absurd hl (by simp)
      | cons q qs =>
        dsimp only at h
        exact ih sz out h hfb

theorem hs_loop_fallback_last (numfmt : Bool) (mult : ℕ) :
    ∀ (ps : List String) (size : Dec) (out : HSOut),
      humansizeLoop numfmt mult size ps = .ok out → out.fb = true →
      ps.getLast? = some out.pfx := by
  intro ps
  induction ps with
  | nil => intro size out h hfb; simp [humansizeLoop] at h
  | cons p rest ih =>
    intro size out h hfb
    rw [humansizeLoop.eq_def] at h
    dsimp only at h
    set sz := div28 size (Dec.ofNat mult) with hsz
    by_cases hb : Dec.blt sz (Dec.ofNat mult) = true
    · rw [if_pos hb] at h
      by_cases hnf : numfmt = false
      · rw [if_pos hnf] at h
        cases h2 : roundUp sz 2 with
        | error er => rw [h2] at h; dsimp only at h; exact absurd h (by simp)
        | ok r2 =>
          rw [h2] at h
          dsimp only at h
          by_cases hb2 : Dec.blt r2 (Dec.ofNat 10) = true
          · rw [if_pos hb2] at h; cases h; simp at hfb
          · rw [if_neg hb2] at h
            cases h1 : roundUp sz 1 with
            | error er => rw [h1] at h; dsimp only at h; exact absurd h (by simp)
            | ok r1 =>
              rw [h1] at h
              dsimp only at h
              by_cases hb1 : Dec.blt r1 (Dec.ofNat 100) = true
              · rw [if_pos hb1] at h; cases h; simp at hfb
              · rw [if_neg hb1] at h
                cases h0 : roundUp sz 0 with
                | error er => rw [h0] at h; dsimp only at h; exact absurd h (by simp)
                | ok r0 =>
                  rw [h0] at h
                  dsimp only at h
                  by_cases hbe : Dec.beq r0 (Dec.ofNat mult) = true
                  · rw [if_pos hbe] at h
                    cases rest with
                    | nil => dsimp only at h; simp [(hs_last_ok h).1]
                    | cons q qs =>
                      dsimp only at h
                      rw [List.getLast?_cons_cons]
                      exact ih (Dec.ofNat mult) out h hfb
                  · rw [if_neg hbe] at h; cases h; simp at hfb
      · rw [if_neg hnf] at h
        cases h1 : roundUp sz 1 with
        | error er => rw [h1] at h; dsimp only at h; exact absurd h (by simp)
        | ok r1 =>
          rw [h1] at h
          dsimp only at h
          by_cases hb1 : Dec.blt r1 (Dec.ofNat 10) = true
          · rw [if_pos hb1] at h; cases h; simp at hfb
          · rw [if_neg hb1] at h
            cases h0 : roundUp sz 0 with
            | error er => rw [h0] at h; dsimp only at h; exact absurd h (by simp)
            | ok r0 =>
              rw [h0] at h
              dsimp only at h
              by_cases hbe : Dec.beq r0 (Dec.ofNat mult) = true
              · rw [if_pos hbe] at h
                cases rest with
                | nil => dsimp only at h; simp [(hs_last_ok h).1]
                | cons q qs =>
                  dsimp only at h
                  rw [List.getLast?_cons_cons]
                  exact ih (Dec.ofNat mult) out h hfb
              · rw [if_neg hbe] at h; cases h; simp at hfb
    · rw [if_neg hb] at h
      cases rest with
      | nil => dsimp only at h; simp [(hs_last_ok h).1]
      | cons q qs =>
        dsimp only at h
        rw [List.getLast?_cons_cons]
        exact ih sz out h hfb

set_option maxRecDepth 200000 in
/-- C1 counterexample: at the largest prefix there is no further escalation;
`humansize(2047 * 2^79)` reaches the Yi scale at 1023.5, rounds up to the
divisor 1024, and the after-loop fallback emits a numeric part equal to the
divisor: `"1024.0YiB"`. -/
theorem humansize_emits_divisor_at_top :
    humansizeZ (2047 * 2 ^ 79) "iec-i" "B" false false = .ok "1024.0YiB" := by
  rfl

set_option maxRecDepth 200000 in
/-- C1 (amended): `humansize` rounds away from zero at every precision stage
(`humansize(1001, prefix="si") = "1.01KB"`), and at every prefix other than
the largest, a rounded value equal to the divisor escalates to the
next-larger prefix, so every numeric part emitted from inside the prefix
loop is strictly below the divisor (`out.c / 10 ^ out.nd < mult`); only the
after-loop largest-unit fallback — which runs exactly at the last prefix of
the table — can emit a numeric part equal to the divisor. -/
theorem humansize_rounds_up_and_escalates :
    humansizeZ 1001 "si" "B" false false = .ok "1.01KB" ∧
    (∀ (numfmt : Bool) (mult : ℕ) (size : Dec) (ps : List String) (out : HSOut),
      100 ≤ mult → humansizeLoop numfmt mult size ps = .ok out → out.fb = false →
      out.c < mult * 10 ^ out.nd) ∧
    (∀ (numfmt : Bool) (mult : ℕ) (size : Dec) (ps : List String) (out : HSOut),
      humansizeLoop numfmt mult size ps = .ok out → out.fb = true →
      ps.getLast? = some out.pfx) :=
  ⟨by rfl,
   fun numfmt mult size ps out hm h hfb => hs_loop_below_mult numfmt mult hm ps size out h hfb,
   fun numfmt mult size ps out h hfb => hs_loop_fallback_last numfmt mult ps size out h hfb⟩

set_option maxRecDepth 200000 in
/-- Witness for the amended C1 theorem at `size = 1001`, `prefix = "si"`:
the loop emits coefficient 101 at two decimals (`"1.01"`), below the
divisor 1000. -/
theorem humansize_rounds_up_and_escalates_witness : (101 : ℕ) < 1000 * 10 ^ 2 :=
  humansize_rounds_up_and_escalates.2.1 false 1000 (Dec.ofNat 1001) (pfxTable "si")
    ⟨101, 2, "K", false⟩ (by norm_num) (by rfl) rfl

/-! ## C2: the throttle timestamp is never advanced by `ProgressText.text` -/

/-- C2: `ProgressText.text` never assigns `_last`, so a redraw does not
advance the last-redraw timestamp.  With `interval = 0.1` and construction
at clock 0, a non-forced call at clock 0.2 redraws yet leaves the state
(including `_last = 0`) unchanged, and a second non-forced call only 0.05
seconds later — inside the refresh interval — redraws again instead of
being a no-op. -/
theorem progressText_text_never_advances_last :
    ProgressText.text c2state (1/5) "a" false = (c2state, .ok (some "\r\x1b[Ka")) ∧
    ProgressText.text c2state (1/4) "b" false = (c2state, .ok (some "\r\x1b[Kb")) ∧
    c2state.last = 0 ∧ c2state.interval = 1/10 := by
  have hst : c2state =
      { start := 0, interval := 1/10, show_elapsed_time := false, last := 0,
        finished := false, elapsed := 0 } := rfl
  refine ⟨?_, ?_, by rw [hst], by rw [hst]⟩
  · rw [hst]
    unfold ProgressText.text
    rw [if_neg (by simp), if_neg (by norm_num), if_neg (by simp)]
    rfl
  · rw [hst]
    unfold ProgressText.text
    rw [if_neg (by simp), if_neg (by norm_num), if_neg (by simp)]
    rfl

/-! ## C3: instant-mode redraws raise UnboundLocalError -/

set_option maxRecDepth 40000 in
/-- C3: `_generate_bar` reads `elapsed_since_last` before any assignment,
so every instant-mode redraw raises `UnboundLocalError`; in particular the
constructor's initial forced redraw does, so
`ProgressBar(100, speed_mode="instant")` cannot even be constructed, and on
an (hypothetical) active instant-mode session every redraw fails the same
way without touching the session. -/
theorem progressBar_instant_mode_raises :
    ProgressBar.init 100 0 1 SpeedMode.instant 0 (some 80) = .error .unboundLocalError ∧
    ProgressBar.generate_bar c3state 5 = (c3state, .error .unboundLocalError) :=
  ⟨by decide, by decide⟩

/-! ## C5: the Finished state is terminal -/

/-- C5: the reporter lifecycle is the boolean `_finished` flag: in the
Finished state every method call (`text`, the bar redraw, `update`,
`force_update`, `finish`) fails with `RuntimeError` and leaves the session
untouched, and a `finish` call that returns normally leaves the session
Finished. -/
theorem finished_state_is_terminal :
    (∀ (st : PTState) (now : ℚ) (c : String) (force : Bool), st.finished = true →
      ProgressText.text st now c force = (st, .error .runtimeError)) ∧
    (∀ (st : PTState) (now : ℚ) (c : String), st.finished = true →
      ProgressText.finish st now c = (st, .error .runtimeError)) ∧
    (∀ (st : PBState) (now : ℚ) (force : Bool), st.pt.finished = true →
      ProgressBar.text_bar st now force = (st, .error .runtimeError)) ∧
    (∀ (st : PBState) (c : ℤ) (now : ℚ), st.pt.finished = true →
      ProgressBar.update st c now = (st, .error .runtimeError)) ∧
    (∀ (st : PBState) (s : ℤ) (now : ℚ), st.pt.finished = true →
      ProgressBar.force_update st s now = (st, .error .runtimeError)) ∧
    (∀ (st : PBState) (now : ℚ), st.pt.finished = true →
      ProgressBar.finish st now = (st, .error .runtimeError)) ∧
    (∀ (st : PTState) (now : ℚ) (c : String) (st' : PTState) (o : Option String),
      ProgressText.finish st now c = (st', .ok o) → st'.finished = true) ∧
    (∀ (st : PBState) (now : ℚ) (st' : PBState) (o : Option String),
      ProgressBar.finish st now = (st', .ok o) → st'.pt.finished = true) := by
  refine ⟨?_, ?_, ?_, ?_, ?_, ?_, ?_, ?_⟩
  · intro st now c force h; unfold ProgressText.text; rw [if_pos h]
  · intro st now c h; unfold ProgressText.finish; rw [if_pos h]
  · intro st now force h; unfold ProgressBar.text_bar; rw [if_pos h]
  · intro st c now h; unfold ProgressBar.update; rw [if_pos h]
  · intro st s now h; unfold ProgressBar.force_update; rw [if_pos h]
  · intro st now h; unfold ProgressBar.finish; rw [if_pos h]
  · intro st now c st' o h
    unfold ProgressText.finish at h
    by_cases hf : st.finished = true
    · rw [if_pos hf] at h; exact absurd h (by simp)
    · rw [if_neg hf] at h
      by_cases hs : st.show_elapsed_time = true
      · rw [if_pos hs] at h
        cases hht : humantime (now - st.start) 0 true with
        | error er => rw [hht] at h; dsimp only at h; exact absurd h (by simp)
        | ok s =>
          rw [hht] at h
          dsimp only at h
          have := congrArg Prod.fst h
          dsimp at this
          rw [← this]
      · rw [if_neg hs] at h
        have := congrArg Prod.fst h
        dsimp at this
        rw [← this]
  · intro st now st' o h
    unfold ProgressBar.finish at h
    by_cases hf : st.pt.finished = true
    · rw [if_pos hf] at h; exact absurd h (by simp)
    · rw [if_neg hf] at h
      dsimp only at h
      split at h
      · exact absurd h (by simp [Prod.ext_iff])
      · split at h
        · split at h
          · exact absurd h (by simp [Prod.ext_iff])
          · have hfst := congrArg Prod.fst h
            dsimp at hfst
            subst hfst
            rfl
        · have hfst := congrArg Prod.fst h
          dsimp at hfst
          subst hfst
          rfl

/-- Witness for the terminal-state theorem: on a concrete finished
`ProgressText` session, `text` fails with `RuntimeError` and the state is
returned unchanged. -/
theorem finished_state_is_terminal_witness :
    ProgressText.text c5fin 5 "x" false = (c5fin, .error .runtimeError) :=
  finished_state_is_terminal.1 c5fin 5 "x" false rfl

/-! ## C4: the session invariant -/

@[simp] theorem ebind_ok {ε α β : Type} (a : α) (f : α → Except ε β) :
    (Except.ok a : Except ε α) >>= f = f a := rfl

@[simp] theorem ebind_err {ε α β : Type} (e : ε) (f : α → Except ε β) :
    (Except.error e : Except ε α) >>= f = .error e := rfl

theorem humantime_zero : humantime 0 0 true = .ok "0:00:00" := by
  norm_num [humantime, rheNat, pad2, zpad, Int.floor_zero]
  rfl

theorem humansizeQ_zero : humansizeQ 0 "iec-i" "B" false false = .ok "0B" := by
  have h1 : (0:ℚ).num.toNat = 0 := by decide
  have h2 : (0:ℚ).den = 1 := by decide
  unfold humansizeQ qToDec
  rw [if_neg (by norm_num), h1, h2]
  rfl

theorem gen_bar_c4 :
    ProgressBar.generate_bar c4pre 0 =
      (c4bad, .ok ("    20B 0:00:00 [     0B/s] [" ++ sRep '=' 63 ++
        ">] 200% ETA unknown")) := by
  norm_num [c4pre, c4bad, ProgressBar.generate_bar, ProgressBar.render_bar,
    humansizeQ_zero, humantime_zero, truncQ, rheInt, Int.floor_zero]
  decide

theorem pt_init_false (interval : ℚ) (now : ℚ) (s : String) :
    ProgressText.init interval false s now =
      ({ start := now, interval := interval, show_elapsed_time := false, last := now,
         finished := false, elapsed := 0 }, .ok (some ("\r\x1b[K" ++ s))) := by
  unfold ProgressText.init ProgressText.text
  rw [if_neg (by simp), if_neg (by simp), if_neg (by simp)]

/-- C4 counterexample: the constructor validates neither
`0 ≤ preprocessed` nor `preprocessed ≤ totalsize`, so
`ProgressBar(10, preprocessed=20)` constructs successfully with
`processedSize = 20 > totalSize = 10`, violating the claimed session
invariant in the very first reachable state. -/
theorem progressBar_invariant_violated :
    ProgressBar.init 10 20 1 SpeedMode.cumulative 0 (some 80) = .ok c4bad ∧
    c4bad.totalsize < c4bad.processed := by
  constructor
  · unfold ProgressBar.init
    rw [if_neg (by norm_num), pt_init_false]
    dsimp only
    unfold ProgressBar.text_bar
    rw [if_neg (by simp), if_neg (by simp)]
    have : ({ pt := { start := 0, interval := 1, show_elapsed_time := false, last := 0,
                      finished := false, elapsed := 0 },
              totalsize := 10, processed := 20, preprocessed := 20,
              speed_mode := SpeedMode.cumulative, last_processed := 0,
              barlen := if 58 ≤ (some 80).getD 80 then (some 80).getD 80 - 48 else 10 } : PBState)
            = c4pre := by norm_num [c4pre]
    rw [this, gen_bar_c4]
    norm_num [c4bad]
  · norm_num [c4bad]

theorem generate_bar_fields (st : PBState) (now : ℚ) :
    ((ProgressBar.generate_bar st now).1).processed = st.processed ∧
    ((ProgressBar.generate_bar st now).1).totalsize = st.totalsize ∧
    ((ProgressBar.generate_bar st now).1).preprocessed = st.preprocessed ∧
    ((ProgressBar.generate_bar st now).1).pt.finished = st.pt.finished := by
  unfold ProgressBar.generate_bar
  split
  · simp
  · split
    · simp
    · simp

theorem text_bar_fields (st : PBState) (now : ℚ) (force : Bool) :
    ((ProgressBar.text_bar st now force).1).processed = st.processed ∧
    ((ProgressBar.text_bar st now force).1).totalsize = st.totalsize ∧
    ((ProgressBar.text_bar st now force).1).preprocessed = st.preprocessed ∧
    ((ProgressBar.text_bar st now force).1).pt.finished = st.pt.finished := by
  have hgb := generate_bar_fields st now
  unfold ProgressBar.text_bar
  split
  · simp
  · split
    · simp
    · split
      · rename_i st1 er heq
        rw [heq] at hgb
        simpa using hgb
      · rename_i st1 t heq
        rw [heq] at hgb
        split
        · split
          · simpa using hgb
          · simpa using hgb
        · simpa using hgb

theorem update_fields (st : PBState) (c : ℤ) (t : ℚ) (hf : st.pt.finished = false) :
    ((ProgressBar.update st c t).1).processed
        = (if st.totalsize < st.processed + c then st.totalsize else st.processed + c) ∧
    ((ProgressBar.update st c t).1).totalsize = st.totalsize ∧
    ((ProgressBar.update st c t).1).preprocessed = st.preprocessed ∧
    ((ProgressBar.update st c t).1).pt.finished = false := by
  unfold ProgressBar.update
  rw [if_neg (by simp [hf])]
  dsimp only
  have := text_bar_fields
    { st with processed := if st.totalsize < st.processed + c then st.totalsize
                           else st.processed + c } t false
  simpa [hf] using this

theorem force_update_fields (st : PBState) (s : ℤ) (t : ℚ) (hf : st.pt.finished = false) :
    ((ProgressBar.force_update st s t).1).processed
        = (if st.totalsize < s then st.totalsize else s) ∧
    ((ProgressBar.force_update st s t).1).totalsize = st.totalsize ∧
    ((ProgressBar.force_update st s t).1).preprocessed = st.preprocessed ∧
    ((ProgressBar.force_update st s t).1).pt.finished = false := by
  unfold ProgressBar.force_update
  rw [if_neg (by simp [hf])]
  dsimp only
  have := text_bar_fields
    { st with processed := if st.totalsize < s then st.totalsize else s } t true
  simpa [hf] using this

theorem finish_fields (st : PBState) (now : ℚ) :
    ((ProgressBar.finish st now).1).processed = st.processed ∧
    ((ProgressBar.finish st now).1).totalsize = st.totalsize ∧
    ((ProgressBar.finish st now).1).preprocessed = st.preprocessed := by
  unfold ProgressBar.finish
  split
  · simp
  · dsimp only
    split
    · simp
    · split
      · split
        · simp
        · simp
      · simp

theorem init_ok_fields {total pre : ℤ} {interval now : ℚ} {sm : SpeedMode}
    {ncol : Option ℕ} {st0 : PBState}
    (h : ProgressBar.init total pre interval sm now ncol = .ok st0) :
    st0.processed = pre ∧ st0.totalsize = total ∧ st0.preprocessed = pre ∧
    st0.pt.finished = false ∧ 0 < total := by
  unfold ProgressBar.init at h
  by_cases ht : total ≤ 0
  · rw [if_pos ht] at h; exact absurd h (by simp)
  · rw [if_neg ht] at h
    rw [pt_init_false] at h
    dsimp only at h
    split at h
    · exact absurd h (by simp)
    · rename_i st1 o heq
      have hf := text_bar_fields
        { pt := { start := now, interval := interval, show_elapsed_time := false,
                  last := now, finished := false, elapsed := 0 },
          totalsize := total, processed := pre, preprocessed := pre,
          speed_mode := sm, last_processed := 0,
          barlen := if 58 ≤ ncol.getD 80 then ncol.getD 80 - 48 else 10 } now true
      rw [heq] at hf
      have hst : st1 = st0 := Except.ok.inj h
      rw [hst] at hf
      refine ⟨by simpa using hf.1, by simpa using hf.2.1, by simpa using hf.2.2.1,
              by simpa using hf.2.2.2, by omega⟩

theorem runUpdates_processed (chunks : List (ℤ × ℚ)) :
    ∀ st : PBState, st.pt.finished = false → st.processed ≤ st.totalsize →
      (∀ ct ∈ chunks, 0 ≤ ct.1) →
      (runUpdates st chunks).processed
          = (if st.totalsize < st.processed + (chunks.map Prod.fst).sum
             then st.totalsize else st.processed + (chunks.map Prod.fst).sum) ∧
      (runUpdates st chunks).totalsize = st.totalsize := by
  induction chunks with
  | nil =>
    intro st hf hle hcs
    simp only [runUpdates, List.map_nil, List.sum_nil, add_zero]
    constructor
    · split <;> omega
    · trivial
  | cons ct rest ih =>
    intro st hf hle hcs
    obtain ⟨c, t⟩ := ct
    rw [runUpdates]
    have hc : (0:ℤ) ≤ c := hcs (c, t) (by simp)
    have hupd := update_fields st c t hf
    have hrest : ∀ ct ∈ rest, (0:ℤ) ≤ ct.1 := fun ct hct => hcs ct (by simp [hct])
    have hle1 : ((ProgressBar.update st c t).1).processed
        ≤ ((ProgressBar.update st c t).1).totalsize := by
      rw [hupd.1, hupd.2.1]; split <;> omega
    have hrec := ih ((ProgressBar.update st c t).1) hupd.2.2.2 hle1 hrest
    have hsumnn : (0:ℤ) ≤ (rest.map Prod.fst).sum :=
      List.sum_nonneg (by
        intro x hx
        obtain ⟨ct, hct, hx⟩ := List.mem_map.mp hx
        rw [← hx]
        exact hrest ct hct)
    refine ⟨?_, ?_⟩
    · rw [hrec.1, hupd.1, hupd.2.1]
      simp only [List.map_cons, List.sum_cons]
      split_ifs <;> omega
    · rw [hrec.2, hupd.2.1]

/-- C4 (amended): provided the constructor is called with
`0 ≤ preprocessed ≤ totalsize`, every `update` chunk size is nonnegative,
and every `force_update` argument is at least the current processed size,
the session invariant `0 ≤ preprocessedSize ≤ processedSize ≤ totalSize`
holds in the initial state and is preserved by every call, `processedSize`
never decreases, and after `update` calls whose chunk sizes sum to more
than `totalSize` the processed size equals `totalSize` exactly. -/
theorem progressBar_invariant_amended :
    (∀ (total pre : ℤ) (interval now : ℚ) (sm : SpeedMode) (ncol : Option ℕ)
        (st0 : PBState), 0 ≤ pre → pre ≤ total →
      ProgressBar.init total pre interval sm now ncol = .ok st0 →
      PBInv st0 ∧ st0.pt.finished = false) ∧
    (∀ (st : PBState) (op : PBOp), PBInv st → opOk st op →
      PBInv (ProgressBar.step st op) ∧
      st.processed ≤ (ProgressBar.step st op).processed) ∧
    (∀ (st : PBState) (chunks : List (ℤ × ℚ)),
      PBInv st → st.pt.finished = false → (∀ ct ∈ chunks, 0 ≤ ct.1) →
      st.totalsize < (chunks.map Prod.fst).sum →
      (runUpdates st chunks).processed = st.totalsize) := by
  refine ⟨?_, ?_, ?_⟩
  · intro total pre interval now sm ncol st0 h0 h1 h
    have hf := init_ok_fields h
    exact ⟨⟨by rw [hf.2.2.1]; exact h0, by rw [hf.2.2.1, hf.1],
            by rw [hf.1, hf.2.1]; exact h1⟩, hf.2.2.2.1⟩
  · intro st op hinv hok
    obtain ⟨hi1, hi2, hi3⟩ := hinv
    cases op with
    | update c t =>
      by_cases hf : st.pt.finished = true
      · simp only [ProgressBar.step]
        unfold ProgressBar.update
        rw [if_pos hf]
        exact ⟨⟨hi1, hi2, hi3⟩, le_refl _⟩
      · have hf0 : st.pt.finished = false := by
          revert hf; cases st.pt.finished <;> simp
        have hc : (0:ℤ) ≤ c := hok
        have hupd := update_fields st c t hf0
        simp only [ProgressBar.step]
        refine ⟨⟨?_, ?_, ?_⟩, ?_⟩
        · rw [hupd.2.2.1]; exact hi1
        · rw [hupd.2.2.1, hupd.1]; split <;> omega
        · rw [hupd.1, hupd.2.1]; split <;> omega
        · rw [hupd.1]; split <;> omega
    | force_update s t =>
      by_cases hf : st.pt.finished = true
      · simp only [ProgressBar.step]
        unfold ProgressBar.force_update
        rw [if_pos hf]
        exact ⟨⟨hi1, hi2, hi3⟩, le_refl _⟩
      · have hf0 : st.pt.finished = false := by
          revert hf; cases st.pt.finished <;> simp
        have hs : st.processed ≤ s := hok
        have hupd := force_update_fields st s t hf0
        simp only [ProgressBar.step]
        refine ⟨⟨?_, ?_, ?_⟩, ?_⟩
        · rw [hupd.2.2.1]; exact hi1
        · rw [hupd.2.2.1, hupd.1]; split <;> omega
        · rw [hupd.1, hupd.2.1]; split <;> omega
        · rw [hupd.1]; split <;> omega
    | finish t =>
      have hfin := finish_fields st t
      simp only [ProgressBar.step]
      refine ⟨⟨?_, ?_, ?_⟩, ?_⟩
      · rw [hfin.2.2]; exact hi1
      · rw [hfin.2.2, hfin.1]; exact hi2
      · rw [hfin.1, hfin.2.1]; exact hi3
      · rw [hfin.1]
  · intro st chunks hinv hf hcs hsum
    have h0 : (0:ℤ) ≤ st.processed := le_trans hinv.1 hinv.2.1
    have := runUpdates_processed chunks st hf hinv.2.2 hcs
    rw [this.1]
    omega

/-- Witness for the amended C4 theorem: one nonnegative `update` step on the
session of `ProgressBar(10)` preserves the invariant and does not decrease
the processed size. -/
theorem progressBar_invariant_amended_witness :
    PBInv (ProgressBar.step c4good (PBOp.update 4 2)) ∧
    c4good.processed ≤ (ProgressBar.step c4good (PBOp.update 4 2)).processed :=
  progressBar_invariant_amended.2.1 c4good (PBOp.update 4 2)
    ⟨by norm_num [c4good], by norm_num [c4good], by norm_num [c4good]⟩
    (by show (0:ℤ) ≤ 4; norm_num)
